import Mathlib

/-!
Shallow embedding of the lab03 code-review-activity pipeline.

Section 1 models get_repos.py: discovery of the most popular repositories
(get_top_200_repos), per-repository pull-request collection with a
wall-clock budget and periodic checkpoints (get_pull_requests_for_repos),
and normalization plus serialization (save_repos_and_prs_to_json).

Section 2 models build_dataset.py: the pure filter stage
(filter_pull_requests) over the normalized data, together with the file
writes it performs.

Modelling conventions:
* Wall-clock time: each iteration of the collector loop reads the elapsed
  time once (time.time() - start_time in the source); a PageEvent records
  that reading together with the outcome the page request would have.
* The network is an explicit input: discovery consumes a list of search
  pages; collection consumes, for each absolute entity index, the list of
  page events for that entity.
* ISO-8601 timestamps parsed by datetime.fromisoformat in build_dataset.py
  are modelled as integers (seconds since an epoch); timedelta(minutes=10)
  becomes the integer 600.
* A Python dict field that may be absent is an Option; a field that may be
  absent or JSON-null (closedAt, mergedAt, body) is an Option (Option _):
  the outer layer is key absence, the inner layer is null.
* The module constant START_INDEX (11 in the source) is the startIndex
  parameter here (1-based, as in the source); the checkpoint file name
  repos_and_prs_partial_{i}.json is modelled by the integer i.
-/

namespace Lab03

/-! ## Section 1: get_repos.py -/

/-- A repository node as returned by the search query:
nameWithOwner, stargazerCount, url are all non-null in the API schema
and indexed directly by the source. -/
structure RawRepo where
  nameWithOwner : String
  stargazerCount : Nat
  url : String
deriving DecidableEq

/-- A search edge: the source accesses repo['node'] directly. -/
structure RepoEdge where
  node : RawRepo
deriving DecidableEq

/-- A sub-object such as reviews { totalCount }: the source reads
sub.get('totalCount', 0), so totalCount may be absent. -/
structure CountObj where
  totalCount : Option Nat
deriving DecidableEq

/-- A raw pull-request node as fetched by the GraphQL query in
get_pull_requests_for_repos.  Every field is optional because the source
normalizes with .get defaults; closedAt, mergedAt and body are nullable in
the API schema, hence Option (Option String). -/
structure RawPRNode where
  title : Option String
  url : Option String
  state : Option String
  createdAt : Option String
  closedAt : Option (Option String)
  mergedAt : Option (Option String)
  reviews : Option CountObj
  files : Option CountObj
  additions : Option Nat
  deletions : Option Nat
  body : Option (Option String)
  participants : Option CountObj
  comments : Option CountObj
deriving DecidableEq

/-- A pull-request edge: the source reads pr.get('node', {}). -/
structure RawPREdge where
  node : Option RawPRNode
deriving DecidableEq

/-- Outcome of one search-page request in get_top_200_repos.  The source
raises on a non-200 status (modelled by fail); on success it reads the
edges and pageInfo.hasNextPage. -/
inductive SearchPage where
  | fail : SearchPage
  | ok : List RepoEdge → Bool → SearchPage
deriving DecidableEq

/-- The while loop of get_top_200_repos: while has_next_page and
len(repos) < 200, fetch a page (raising on failure), extend repos, update
has_next_page; finally return repos[:200].  The list of pages is the
environment; if it runs out the loop returns as the source does at exit. -/
def topReposGo : List SearchPage → List RepoEdge → Bool → Except String (List RepoEdge)
  | [], repos, _ => .ok (repos.take 200)
  | p :: rest, repos, hasNext =>
    if hasNext = true ∧ repos.length < 200 then
      match p with
      | .fail => .error "Erro na requisicao"
      | .ok edges hn => topReposGo rest (repos ++ edges) hn
    else .ok (repos.take 200)

/-- get_top_200_repos from get_repos.py. -/
def get_top_200_repos (pages : List SearchPage) : Except String (List RepoEdge) :=
  topReposGo pages [] true

/-- The normalized pull-request record built by save_repos_and_prs_to_json.
closedAt and mergedAt are Option String because pr_node.get('closedAt','')
yields Python None when the key is present with a null value (none here)
and '' when the key is absent (some "" here). -/
structure OutPR where
  title : String
  url : String
  state : String
  createdAt : String
  closedAt : Option String
  mergedAt : Option String
  reviewCount : Nat
  numberOfFiles : Nat
  additions : Nat
  deletions : Nat
  descriptionSize : Nat
  participantsCount : Nat
  commentsCount : Nat
deriving DecidableEq

/-- A repository entry in the serialized output: the inner value of the
top-level \x7brepository: ...\x7d wrapper object. -/
structure OutRepo where
  nameWithOwner : String
  stars : Nat
  url : String
  pullRequests : List OutPR
deriving DecidableEq

/-- The empty dict used by pr.get('node', {}). -/
def defaultRawPRNode : RawPRNode :=
  ⟨none, none, none, none, none, none, none, none, none, none, none, none, none⟩

/-- The per-record normalization in save_repos_and_prs_to_json:
sub-objects default to {} (via the `or {}` correction in the source),
counts default to 0, strings default to '', and descriptionSize is
len(pr_node.get('body','') or ''). -/
def normalizePRNode (n : RawPRNode) : OutPR :=
  let files_info := n.files.getD ⟨none⟩
  let participants_info := n.participants.getD ⟨none⟩
  let comments_info := n.comments.getD ⟨none⟩
  let reviews_info := n.reviews.getD ⟨none⟩
  { title := n.title.getD ""
    url := n.url.getD ""
    state := n.state.getD ""
    createdAt := n.createdAt.getD ""
    closedAt := n.closedAt.getD (some "")
    mergedAt := n.mergedAt.getD (some "")
    reviewCount := reviews_info.totalCount.getD 0
    numberOfFiles := files_info.totalCount.getD 0
    additions := n.additions.getD 0
    deletions := n.deletions.getD 0
    descriptionSize := ((n.body.getD (some "")).getD "").length
    participantsCount := participants_info.totalCount.getD 0
    commentsCount := comments_info.totalCount.getD 0 }

/-- Normalization of one edge: pr_node = pr.get('node', {}). -/
def normalizePREdge (e : RawPREdge) : OutPR :=
  normalizePRNode (e.node.getD defaultRawPRNode)

/-- First-match association-list lookup, the model of
repo_pr_map.get(name, ...) on an insertion-ordered dict. -/
def lookupName {α : Type} : List (String × α) → String → Option α
  | [], _ => none
  | (k, v) :: rest, key => if k = key then some v else lookupName rest key

/-- save_repos_and_prs_to_json from get_repos.py: for each repository keep
its collected pull requests (skipping repositories whose list is absent or
empty) and normalize each record.  File writing itself is not modelled;
the function returns the serialized document. -/
def save_repos_and_prs_to_json (repos : List RepoEdge)
    (repo_pr_map : List (String × List RawPREdge)) : List OutRepo :=
  repos.filterMap fun r =>
    let prs := (lookupName repo_pr_map r.node.nameWithOwner).getD []
    if prs.isEmpty then none
    else some { nameWithOwner := r.node.nameWithOwner
                stars := r.node.stargazerCount
                url := r.node.url
                pullRequests := prs.map normalizePREdge }

/-- Outcome of one pull-request page request, as distinguished by the
source: requests timeout, any other exception, a non-200 status, a
response body with an errors list, or success with edges and hasNextPage. -/
inductive FetchResult where
  | timeoutExc : FetchResult
  | otherExc : FetchResult
  | badStatus : FetchResult
  | apiErrors : FetchResult
  | ok : List RawPREdge → Bool → FetchResult
deriving DecidableEq

/-- One iteration of the collection loop: the elapsed-time reading made at
the top of the iteration, and the outcome the page request would have. -/
structure PageEvent where
  elapsed : Nat
  result : FetchResult
deriving DecidableEq

/-- Result of one repository's collection loop: the collected edges and
the page requests actually issued, in order. -/
structure LoopResult where
  collected : List RawPREdge
  fetched : List PageEvent
deriving DecidableEq

/-- The inner while loop of get_pull_requests_for_repos: while
has_next_page and len(collected) < max_prs_per_repo, check the timeout
(break without fetching if elapsed exceeds it), issue the page request
(break on any failure, keeping what was gathered), extend the collection
and continue. -/
def collectLoop (maxPRs timeoutSec : Nat) :
    List PageEvent → List RawPREdge → Bool → LoopResult
  | _, acc, false => ⟨acc, []⟩
  | [], acc, true => ⟨acc, []⟩
  | ev :: rest, acc, true =>
    if maxPRs ≤ acc.length then ⟨acc, []⟩
    else if timeoutSec < ev.elapsed then ⟨acc, []⟩
    else
      match ev.result with
      | .ok edges hn =>
        let r := collectLoop maxPRs timeoutSec rest (acc ++ edges) hn
        ⟨r.collected, ev :: r.fetched⟩
      | _ => ⟨acc, [ev]⟩

/-- Insertion-ordered dict assignment: replace in place if the key exists,
append otherwise (Python dict semantics). -/
def upsert {α : Type} : List (String × α) → String → α → List (String × α)
  | [], k, v => [(k, v)]
  | (k', v') :: rest, k, v =>
    if k' = k then (k, v) :: rest else (k', v') :: upsert rest k v

/-- Result of the whole collection phase: the repo -> pull requests map,
the checkpoints written (index and serialized content), and per repository
the page requests issued. -/
structure CollectResult where
  prMap : List (String × List RawPREdge)
  checkpoints : List (Nat × List OutRepo)
  fetchLog : List (String × List PageEvent)
deriving DecidableEq

/-- The outer loop of get_pull_requests_for_repos over
enumerate(repos[START_INDEX-1:], start=START_INDEX): initialize the map
entry, run the collection loop, truncate to max_prs_per_repo, and every
time index % 10 == 0 write a checkpoint of repos[:index] with the current
map. -/
def collectGo (allRepos : List RepoEdge) (maxPRs timeoutSec : Nat)
    (events : Nat → List PageEvent) :
    List RepoEdge → Nat → List (String × List RawPREdge) →
    List (Nat × List OutRepo) → List (String × List PageEvent) → CollectResult
  | [], _, m, cks, log => ⟨m, cks, log⟩
  | r :: rest, index, m, cks, log =>
    let name := r.node.nameWithOwner
    let res := collectLoop maxPRs timeoutSec (events index) [] true
    let m2 := upsert (upsert m name []) name (res.collected.take maxPRs)
    let cks2 :=
      if index % 10 = 0 then
        cks ++ [(index, save_repos_and_prs_to_json (allRepos.take index) m2)]
      else cks
    collectGo allRepos maxPRs timeoutSec events rest (index + 1) m2 cks2
      (log ++ [(name, res.fetched)])

/-- get_pull_requests_for_repos from get_repos.py.  startIndex is the
resume offset START_INDEX (11 in the source); events gives each absolute
entity index its page events. -/
def get_pull_requests_for_repos (repos : List RepoEdge) (startIndex : Nat)
    (events : Nat → List PageEvent) (maxPRsPerRepo repoTimeout : Nat) :
    CollectResult :=
  collectGo repos maxPRsPerRepo repoTimeout events
    (repos.drop (startIndex - 1)) startIndex [] [] []

/-- The edges carried by a successful page event ([] for a failure). -/
def eventEdges (ev : PageEvent) : List RawPREdge :=
  match ev.result with
  | .ok edges _ => edges
  | _ => []

/-- Whether a page event is one of the failure outcomes the source
distinguishes (timeout, other exception, bad status, API errors). -/
def eventIsErr (ev : PageEvent) : Bool :=
  match ev.result with
  | .ok _ _ => false
  | _ => true

/-- The records the collection phase ends up keeping for one entity:
the inner loop's result truncated to the per-entity cap. -/
def entityRecords (maxPRs timeoutSec : Nat) (evs : List PageEvent) :
    List RawPREdge :=
  (collectLoop maxPRs timeoutSec evs [] true).collected.take maxPRs

/-- Expected final contents of the repo -> pull-requests map: one entry
per processed repository, in processing order. -/
def mapSpec (maxPRs timeoutSec : Nat) (events : Nat → List PageEvent) :
    List RepoEdge → Nat → List (String × List RawPREdge)
  | [], _ => []
  | r :: rs, index =>
    (r.node.nameWithOwner, entityRecords maxPRs timeoutSec (events index)) ::
      mapSpec maxPRs timeoutSec events rs (index + 1)

/-- Expected fetch log: per processed repository, the page requests its
inner loop issues. -/
def logSpec (maxPRs timeoutSec : Nat) (events : Nat → List PageEvent) :
    List RepoEdge → Nat → List (String × List PageEvent)
  | [], _ => []
  | r :: rs, index =>
    (r.node.nameWithOwner,
      (collectLoop maxPRs timeoutSec (events index) [] true).fetched) ::
      logSpec maxPRs timeoutSec events rs (index + 1)

/-- Expected checkpoints: after processing the entity at absolute index i
(which appends that entity's records to the map), a checkpoint named i
with the serialization of the first i entities against the current map is
written exactly when i is a multiple of 10. -/
def cksSpec (allRepos : List RepoEdge) (maxPRs timeoutSec : Nat)
    (events : Nat → List PageEvent) :
    List RepoEdge → Nat → List (String × List RawPREdge) →
    List (Nat × List OutRepo)
  | [], _, _ => []
  | r :: rs, index, m =>
    let m2 := m ++ [(r.node.nameWithOwner,
      entityRecords maxPRs timeoutSec (events index))]
    (if index % 10 = 0 then
        [(index, save_repos_and_prs_to_json (allRepos.take index) m2)]
      else []) ++ cksSpec allRepos maxPRs timeoutSec events rs (index + 1) m2

/-- The list of absolute indices s, s+1, ..., s+n-1. -/
def idxRange : Nat → Nat → List Nat
  | _, 0 => []
  | s, n + 1 => s :: idxRange (s + 1) n

/-! ## Section 2: build_dataset.py -/

/-- timedelta(minutes=10) with timestamps in seconds. -/
def tenMinutes : Int := 600

/-- A pull-request record as read back by build_dataset.py.  createdAt is
always parsed; closedAt and mergedAt are parsed only when truthy
(non-empty, non-null), so none stands for '' or null. -/
structure PullRequest where
  title : String
  url : String
  state : String
  createdAt : Int
  closedAt : Option Int
  mergedAt : Option Int
  reviewCount : Nat
  numberOfFiles : Nat
  additions : Nat
  deletions : Nat
  descriptionSize : Nat
  participantsCount : Nat
  commentsCount : Nat
deriving DecidableEq

/-- The repository object of build_dataset.py (the value under the
top-level 'repository' key; the one-field wrapper dict is elided). -/
structure Repository where
  nameWithOwner : String
  stars : Nat
  url : String
  pullRequests : List PullRequest
deriving DecidableEq

/-- The per-record filter of filter_pull_requests: has_reviews is
reviewCount > 0 or commentsCount > 0; time_diff is mergedAt - createdAt if
merged, else closedAt - createdAt if closed, else None; the record is kept
iff has_reviews and time_diff (Python truthiness: non-None and nonzero)
and time_diff >= timedelta(minutes=10). -/
def prSurvives (pr : PullRequest) : Bool :=
  let has_reviews : Bool := decide (0 < pr.reviewCount) || decide (0 < pr.commentsCount)
  let time_diff : Option Int :=
    match pr.mergedAt with
    | some m => some (m - pr.createdAt)
    | none =>
      match pr.closedAt with
      | some c => some (c - pr.createdAt)
      | none => none
  match time_diff with
  | none => false
  | some td => has_reviews && decide (td ≠ 0) && decide (tenMinutes ≤ td)

/-- The repository entry rebuilt by filter_pull_requests for a kept
repository: same nameWithOwner, stars, url, with the surviving records. -/
def keptRepo (r : Repository) : Repository :=
  { nameWithOwner := r.nameWithOwner
    stars := r.stars
    url := r.url
    pullRequests := r.pullRequests.filter prSurvives }

/-- The in-memory computation of filter_pull_requests from
build_dataset.py: per repository, keep the surviving records; retain the
repository (and record its name) only when at least 20 records survive.
Returns (filtered_data, repos_names). -/
def filter_pull_requests : List Repository → List Repository × List String
  | [] => ([], [])
  | r :: rs =>
    let rest := filter_pull_requests rs
    if 20 ≤ (r.pullRequests.filter prSurvives).length then
      (keptRepo r :: rest.1, r.nameWithOwner :: rest.2)
    else rest

/-- A file written by the filter stage. -/
inductive FileWrite where
  | dataFile : String → List Repository → FileWrite
  | namesFile : String → List String → FileWrite
deriving DecidableEq

/-- The files filter_pull_requests writes: if filtered_data is truthy
(non-empty) it writes the filtered data to output_filename and the names
to repos_names.json; otherwise it writes nothing. -/
def filter_stage_writes (output_filename : String) (data : List Repository) :
    List FileWrite :=
  let res := filter_pull_requests data
  if res.1.isEmpty then []
  else [.dataFile output_filename res.1, .namesFile "repos_names.json" res.2]

/-- Resolution time exactly as the spec words it: mergedAt if present,
else closedAt if present, else none. -/
def resolutionTime (pr : PullRequest) : Option Int :=
  match pr.mergedAt with
  | some m => some m
  | none => pr.closedAt

/-- The survival predicate exactly as the spec words it: (reviewCount > 0
or commentsCount > 0) and a resolution time exists and it is at least 10
minutes after creation. -/
def SurvivalSpec (pr : PullRequest) : Prop :=
  (0 < pr.reviewCount ∨ 0 < pr.commentsCount) ∧
  ∃ rt, resolutionTime pr = some rt ∧ tenMinutes ≤ rt - pr.createdAt

/-- The filter stage as a relation (one derivation per run of the stage),
used to state determinism: record-wise filtering with the minimum-count-20
retention. -/
inductive FilterRel : List Repository → List Repository × List String → Prop where
  | nil : FilterRel [] ([], [])
  | keep {r : Repository} {rs : List Repository} {out : List Repository}
      {names : List String} :
      20 ≤ (r.pullRequests.filter prSurvives).length →
      FilterRel rs (out, names) →
      FilterRel (r :: rs) (keptRepo r :: out, r.nameWithOwner :: names)
  | skip {r : Repository} {rs : List Repository} {out : List Repository}
      {names : List String} :
      (r.pullRequests.filter prSurvives).length < 20 →
      FilterRel rs (out, names) →
      FilterRel (r :: rs) (out, names)

/-! ## Theorems -/

/-- Claim C1: for every ChildRecord presented to the filter stage, the
record survives filtering iff (reviewCount > 0 or commentsCount > 0) and a
resolution time exists (mergedAt if present, else closedAt if present,
else the record is excluded regardless of other fields) and the resolution
time minus createdAt is at least 10 minutes. -/
theorem c1_survival_iff (pr : PullRequest) :
    prSurvives pr = true ↔ SurvivalSpec pr := by
  obtain ⟨t, u, s, ca, cl, mg, rc, nf, ad, de, ds, pc, cc⟩ := pr
  rcases mg with _ | m
  · rcases cl with _ | c
    · simp [prSurvives, SurvivalSpec, resolutionTime]
    · simp only [prSurvives, SurvivalSpec, resolutionTime, tenMinutes,
        Bool.and_eq_true, Bool.or_eq_true, decide_eq_true_eq,
        Option.some.injEq, ne_eq]
      constructor
      · rintro ⟨⟨hr, hnz⟩, hge⟩
        exact ⟨hr, c, rfl, hge⟩
      · rintro ⟨hr, rt, rfl, hge⟩
        exact ⟨⟨hr, by omega⟩, hge⟩
  · simp only [prSurvives, SurvivalSpec, resolutionTime, tenMinutes,
      Bool.and_eq_true, Bool.or_eq_true, decide_eq_true_eq,
      Option.some.injEq, ne_eq]
    constructor
    · rintro ⟨⟨hr, hnz⟩, hge⟩
      exact ⟨hr, m, rfl, hge⟩
    · rintro ⟨hr, rt, rfl, hge⟩
      exact ⟨⟨hr, by omega⟩, hge⟩

/-! ### Filter stage support lemmas -/

lemma filter_cons_pos {r : Repository} {rs : List Repository}
    (h : 20 ≤ (r.pullRequests.filter prSurvives).length) :
    filter_pull_requests (r :: rs) =
      (keptRepo r :: (filter_pull_requests rs).1,
       r.nameWithOwner :: (filter_pull_requests rs).2) := by
  simp only [filter_pull_requests, if_pos h]

lemma filter_cons_neg {r : Repository} {rs : List Repository}
    (h : ¬ 20 ≤ (r.pullRequests.filter prSurvives).length) :
    filter_pull_requests (r :: rs) = filter_pull_requests rs := by
  simp only [filter_pull_requests, if_neg h]

lemma filter_names_eq (data : List Repository) :
    (filter_pull_requests data).2 =
      (filter_pull_requests data).1.map Repository.nameWithOwner := by
  induction data with
  | nil => rfl
  | cons r rs ih =>
    by_cases hc : 20 ≤ (r.pullRequests.filter prSurvives).length
    · rw [filter_cons_pos hc]
      simp [keptRepo, ih]
    · rw [filter_cons_neg hc]
      exact ih

lemma mem_filter_output {data : List Repository} {r' : Repository}
    (h : r' ∈ (filter_pull_requests data).1) :
    ∃ repo, repo ∈ data ∧ 20 ≤ (repo.pullRequests.filter prSurvives).length ∧
      r' = keptRepo repo := by
  induction data with
  | nil => simp [filter_pull_requests] at h
  | cons r rs ih =>
    by_cases hc : 20 ≤ (r.pullRequests.filter prSurvives).length
    · rw [filter_cons_pos hc] at h
      rcases List.mem_cons.mp h with h1 | h2
      · exact ⟨r, List.mem_cons_self r rs, hc, h1⟩
      · obtain ⟨repo, hm, hcnt, he⟩ := ih h2
        exact ⟨repo, List.mem_cons_of_mem _ hm, hcnt, he⟩
    · rw [filter_cons_neg hc] at h
      obtain ⟨repo, hm, hcnt, he⟩ := ih h
      exact ⟨repo, List.mem_cons_of_mem _ hm, hcnt, he⟩

lemma filter_output_nil {data : List Repository}
    (h : ∀ repo ∈ data, (repo.pullRequests.filter prSurvives).length < 20) :
    filter_pull_requests data = ([], []) := by
  induction data with
  | nil => rfl
  | cons r rs ih =>
    have hr := h r (List.mem_cons_self r rs)
    rw [filter_cons_neg (by omega)]
    exact ih fun repo hm => h repo (List.mem_cons_of_mem _ hm)

lemma filter_filter_self (l : List PullRequest) :
    (l.filter prSurvives).filter prSurvives = l.filter prSurvives := by
  apply List.filter_eq_self.mpr
  intro a ha
  exact (List.mem_filter.mp ha).2

lemma keptRepo_idem (r : Repository) : keptRepo (keptRepo r) = keptRepo r := by
  simp [keptRepo, filter_filter_self]

lemma filterRel_eq {d : List Repository} {o : List Repository × List String}
    (h : FilterRel d o) : o = filter_pull_requests d := by
  induction h with
  | nil => rfl
  | keep hc _ ih =>
    rw [filter_cons_pos hc, ← ih]
  | skip hc _ ih =>
    rw [filter_cons_neg (by omega)]
    exact ih

/-! ### Filter stage claims -/

/-- Claim C4: every Entity in the filter output has at least 20 surviving
ChildRecords, and (names being distinct) an Entity with fewer surviving
records is absent from both the filtered output and the surviving-identity
list. -/
theorem c4_min_twenty_retention (data : List Repository)
    (hnd : (data.map Repository.nameWithOwner).Nodup) :
    (∀ r ∈ (filter_pull_requests data).1, 20 ≤ r.pullRequests.length) ∧
    (∀ repo ∈ data, (repo.pullRequests.filter prSurvives).length < 20 →
      repo.nameWithOwner ∉ (filter_pull_requests data).2 ∧
      ∀ r ∈ (filter_pull_requests data).1,
        r.nameWithOwner ≠ repo.nameWithOwner) := by
  have hinj := List.inj_on_of_nodup_map hnd
  constructor
  · intro r hr
    obtain ⟨repo, _, hc, he⟩ := mem_filter_output hr
    subst he
    simpa [keptRepo] using hc
  · intro repo hmem hlt
    constructor
    · intro hname
      rw [filter_names_eq] at hname
      obtain ⟨r', hr', hname'⟩ := List.mem_map.mp hname
      obtain ⟨repo', hm', hc', he'⟩ := mem_filter_output hr'
      have heqn : repo'.nameWithOwner = repo.nameWithOwner := by
        rw [← hname', he']
        simp [keptRepo]
      rw [hinj hm' hmem heqn] at hc'
      omega
    · intro r hr hname
      obtain ⟨repo', hm', hc', he'⟩ := mem_filter_output hr
      have heqn : repo'.nameWithOwner = repo.nameWithOwner := by
        rw [← hname, he']
        simp [keptRepo]
      rw [hinj hm' hmem heqn] at hc'
      omega

/-- Claim C8: the filter stage is idempotent — refiltering the filtered
output yields the identical pair of filtered data and surviving names. -/
theorem c8_filter_idempotent (data : List Repository) :
    filter_pull_requests (filter_pull_requests data).1 =
      filter_pull_requests data := by
  induction data with
  | nil => rfl
  | cons r rs ih =>
    by_cases hc : 20 ≤ (r.pullRequests.filter prSurvives).length
    · rw [filter_cons_pos hc]
      have hk : (keptRepo r).pullRequests.filter prSurvives =
          r.pullRequests.filter prSurvives := by
        simp [keptRepo, filter_filter_self]
      dsimp only
      rw [filter_cons_pos (by rw [hk]; exact hc), ih, keptRepo_idem]
      simp [keptRepo]
    · rw [filter_cons_neg hc]
      exact ih

/-- Claim C9: the filter stage is deterministic — the embedded function is
a run of the stage, and any two runs on the same input produce the same
filtered list and identity list. -/
theorem c9_filter_deterministic (data : List Repository) :
    FilterRel data (filter_pull_requests data) ∧
    ∀ o₁ o₂, FilterRel data o₁ → FilterRel data o₂ → o₁ = o₂ := by
  constructor
  · induction data with
    | nil => exact FilterRel.nil
    | cons r rs ih =>
      have ih' : FilterRel rs
          ((filter_pull_requests rs).1, (filter_pull_requests rs).2) := by
        rw [Prod.mk.eta]
        exact ih
      by_cases hc : 20 ≤ (r.pullRequests.filter prSurvives).length
      · rw [filter_cons_pos hc]
        exact FilterRel.keep hc ih'
      · rw [filter_cons_neg hc]
        have := FilterRel.skip (r := r) (by omega) ih'
        simpa using this
  · intro o₁ o₂ h₁ h₂
    rw [filterRel_eq h₁, filterRel_eq h₂]

/-- Witness for C9 at a concrete input. -/
theorem c9_witness :
    FilterRel [] (filter_pull_requests []) ∧
    (([], []) : List Repository × List String) = ([], []) :=
  ⟨(c9_filter_deterministic []).1,
   (c9_filter_deterministic []).2 ([], []) ([], []) FilterRel.nil FilterRel.nil⟩

/-- Claim C10: when no repository reaches 20 surviving records, the filter
stage writes no file at all. -/
theorem c10_no_output_when_no_repo_qualifies (output_filename : String)
    (data : List Repository)
    (h : ∀ repo ∈ data, (repo.pullRequests.filter prSurvives).length < 20) :
    filter_stage_writes output_filename data = [] := by
  simp [filter_stage_writes, filter_output_nil h]

/-- A repository with no pull requests, used as concrete input. -/
def sampleEmptyRepo : Repository :=
  ⟨"octo/sample", 5, "https://example.com/octo/sample", []⟩

/-- A pull request that survives the filter, used as concrete input. -/
def goodPR : PullRequest :=
  ⟨"t", "https://example.com/pr/1", "MERGED", 0, none, some 700, 1, 1, 1, 1, 0, 1, 0⟩

/-- A repository with 20 surviving pull requests, used as concrete input. -/
def sampleKeptRepo : Repository :=
  ⟨"octo/kept", 10, "https://example.com/octo/kept", List.replicate 20 goodPR⟩

/-- Witness for C10 at a concrete input. -/
theorem c10_witness :
    filter_stage_writes "filtered_prs.json" [sampleEmptyRepo] = [] :=
  c10_no_output_when_no_repo_qualifies "filtered_prs.json" [sampleEmptyRepo]
    (by decide)

/-- Witness for C4 at a concrete input. -/
theorem c4_witness :
    (∀ r ∈ (filter_pull_requests [sampleKeptRepo, sampleEmptyRepo]).1,
        20 ≤ r.pullRequests.length) ∧
    (∀ repo ∈ [sampleKeptRepo, sampleEmptyRepo],
      (repo.pullRequests.filter prSurvives).length < 20 →
      repo.nameWithOwner ∉
        (filter_pull_requests [sampleKeptRepo, sampleEmptyRepo]).2 ∧
      ∀ r ∈ (filter_pull_requests [sampleKeptRepo, sampleEmptyRepo]).1,
        r.nameWithOwner ≠ repo.nameWithOwner) :=
  c4_min_twenty_retention [sampleKeptRepo, sampleEmptyRepo] (by decide)

/-! ### Normalization claim -/

/-- Claim C6: normalization is total — the normalized record's numeric
fields are plain naturals, defined for every raw record whatever the
combination of absent sub-objects — each absent nested sub-object yields a
zero count, and a null body yields descriptionSize 0 rather than an
error. -/
theorem c6_normalization_total (n : RawPRNode) :
    (n.reviews = none → (normalizePRNode n).reviewCount = 0) ∧
    (n.files = none → (normalizePRNode n).numberOfFiles = 0) ∧
    (n.participants = none → (normalizePRNode n).participantsCount = 0) ∧
    (n.comments = none → (normalizePRNode n).commentsCount = 0) ∧
    (n.body = some none → (normalizePRNode n).descriptionSize = 0) := by
  refine ⟨?_, ?_, ?_, ?_, ?_⟩ <;> intro h <;> simp [normalizePRNode, h]

/-- A raw record whose sub-objects are all absent and whose body is
JSON-null, used as concrete input. -/
def nullBodyNode : RawPRNode :=
  ⟨some "t", some "https://example.com/pr/2", some "MERGED",
   some "2024-01-01T00:00:00Z", none, none, none, none, none, none,
   some none, none, none⟩

/-- Witness for C6 at a concrete input. -/
theorem c6_witness :
    (normalizePRNode nullBodyNode).reviewCount = 0 ∧
    (normalizePRNode nullBodyNode).numberOfFiles = 0 ∧
    (normalizePRNode nullBodyNode).participantsCount = 0 ∧
    (normalizePRNode nullBodyNode).commentsCount = 0 ∧
    (normalizePRNode nullBodyNode).descriptionSize = 0 :=
  ⟨(c6_normalization_total nullBodyNode).1 rfl,
   (c6_normalization_total nullBodyNode).2.1 rfl,
   (c6_normalization_total nullBodyNode).2.2.1 rfl,
   (c6_normalization_total nullBodyNode).2.2.2.1 rfl,
   (c6_normalization_total nullBodyNode).2.2.2.2 rfl⟩

/-! ### Collection caps (C5) -/

lemma topReposGo_length (pages : List SearchPage) :
    ∀ acc hn l, topReposGo pages acc hn = Except.ok l → l.length ≤ 200 := by
  induction pages with
  | nil =>
    intro acc hn l h
    simp only [topReposGo, Except.ok.injEq] at h
    subst h
    simp [List.length_take]
  | cons p rest ih =>
    intro acc hn l h
    simp only [topReposGo] at h
    split at h
    · cases p with
      | fail => simp at h
      | ok edges hnp => exact ih _ _ _ h
    · simp only [Except.ok.injEq] at h
      subst h
      simp [List.length_take]

lemma upsert_forall {α : Type} {P : α → Prop} (k : String) (v : α) :
    ∀ (m : List (String × α)), (∀ e ∈ m, P e.2) → P v →
      ∀ e ∈ upsert m k v, P e.2 := by
  intro m
  induction m with
  | nil =>
    intro _ hv e he
    simp only [upsert, List.mem_singleton] at he
    subst he
    exact hv
  | cons x rest ih =>
    intro hm hv e he
    obtain ⟨k', v'⟩ := x
    simp only [upsert] at he
    split at he
    · rcases List.mem_cons.mp he with h1 | h2
      · subst h1; exact hv
      · exact hm _ (List.mem_cons_of_mem _ h2)
    · rcases List.mem_cons.mp he with h1 | h2
      · subst h1; exact hm _ (List.mem_cons_self _ _)
      · exact ih (fun e' he' => hm e' (List.mem_cons_of_mem _ he')) hv _ h2

lemma collectGo_prMap_bound (allRepos : List RepoEdge) (maxPRs t : Nat)
    (events : Nat → List PageEvent) :
    ∀ (rs : List RepoEdge) (index : Nat) m cks log,
      (∀ e ∈ m, e.2.length ≤ maxPRs) →
      ∀ e ∈ (collectGo allRepos maxPRs t events rs index m cks log).prMap,
        e.2.length ≤ maxPRs := by
  intro rs
  induction rs with
  | nil =>
    intro index m cks log hm e he
    exact hm e he
  | cons r rest ih =>
    intro index m cks log hm e he
    simp only [collectGo] at he
    have h1 : ∀ e' ∈ upsert m r.node.nameWithOwner ([] : List RawPREdge),
        e'.2.length ≤ maxPRs :=
      upsert_forall (P := fun x : List RawPREdge => x.length ≤ maxPRs)
        _ _ m hm (by simp)
    have h2 : ∀ e' ∈ upsert (upsert m r.node.nameWithOwner [])
        r.node.nameWithOwner
        ((collectLoop maxPRs t (events index) [] true).collected.take maxPRs),
        e'.2.length ≤ maxPRs :=
      upsert_forall (P := fun x : List RawPREdge => x.length ≤ maxPRs)
        _ _ _ h1 (by simp only [List.length_take]; omega)
    exact ih _ _ _ _ h2 e he

/-- Claim C5: discovery returns at most 200 entities, and every entry of
the map returned by child-record collection holds at most 100 records. -/
theorem c5_collection_caps (pages : List SearchPage) (l : List RepoEdge)
    (repos : List RepoEdge) (startIndex : Nat) (events : Nat → List PageEvent)
    (hdisc : get_top_200_repos pages = Except.ok l) :
    l.length ≤ 200 ∧
    ∀ e ∈ (get_pull_requests_for_repos repos startIndex events 100 90).prMap,
      e.2.length ≤ 100 := by
  refine ⟨topReposGo_length pages [] true l hdisc, ?_⟩
  unfold get_pull_requests_for_repos
  exact collectGo_prMap_bound repos 100 90 events _ startIndex [] [] [] (by simp)

/-- Witness for C5 at a concrete input. -/
theorem c5_witness :
    ([] : List RepoEdge).length ≤ 200 ∧
    ∀ e ∈ (get_pull_requests_for_repos [] 1 (fun _ => []) 100 90).prMap,
      e.2.length ≤ 100 :=
  c5_collection_caps [] [] [] 1 (fun _ => []) rfl

/-! ### Collection loop lemmas -/

lemma collectLoop_fetched_elapsed (maxPRs t : Nat) :
    ∀ (evs : List PageEvent) (acc : List RawPREdge) (hn : Bool),
      ∀ ev ∈ (collectLoop maxPRs t evs acc hn).fetched, ev.elapsed ≤ t := by
  intro evs
  induction evs with
  | nil =>
    intro acc hn ev hev
    cases hn <;> simp [collectLoop] at hev
  | cons e rest ih =>
    intro acc hn ev hev
    cases hn with
    | false => simp [collectLoop] at hev
    | true =>
      simp only [collectLoop] at hev
      by_cases hcap : maxPRs ≤ acc.length
      · rw [if_pos hcap] at hev
        simp at hev
      · rw [if_neg hcap] at hev
        by_cases htime : t < e.elapsed
        · rw [if_pos htime] at hev
          simp at hev
        · rw [if_neg htime] at hev
          cases hres : e.result with
          | ok edges hn2 =>
            simp only [hres] at hev
            rcases List.mem_cons.mp hev with h1 | h2
            · subst h1; omega
            · exact ih _ _ ev h2
          | timeoutExc => simp [hres] at hev; subst hev; omega
          | otherExc => simp [hres] at hev; subst hev; omega
          | badStatus => simp [hres] at hev; subst hev; omega
          | apiErrors => simp [hres] at hev; subst hev; omega

lemma collectLoop_timeout (maxPRs t : Nat) :
    ∀ (pre : List PageEvent) (late : PageEvent) (post : List PageEvent)
      (acc : List RawPREdge),
      (∀ ev ∈ pre, ev.elapsed ≤ t ∧ ∃ es, ev.result = .ok es true) →
      acc.length + ((pre.map eventEdges).flatten).length < maxPRs →
      t < late.elapsed →
      collectLoop maxPRs t (pre ++ late :: post) acc true =
        ⟨acc ++ (pre.map eventEdges).flatten, pre⟩ := by
  intro pre
  induction pre with
  | nil =>
    intro late post acc hpre hcap hlate
    simp only [List.nil_append, collectLoop]
    rw [if_neg (by simp at hcap; omega), if_pos hlate]
    simp
  | cons e pre' ih =>
    intro late post acc hpre hcap hlate
    obtain ⟨htime, es, hres⟩ := hpre e (List.mem_cons_self e pre')
    have hjoin : (((e :: pre').map eventEdges)).flatten =
        es ++ ((pre'.map eventEdges)).flatten := by
      simp [eventEdges, hres]
    rw [hjoin] at hcap
    simp only [List.length_append] at hcap
    simp only [List.cons_append, collectLoop]
    rw [if_neg (by omega), if_neg (by omega)]
    simp only [hres]
    simp only [List.append_eq]
    rw [ih late post (acc ++ es)
      (fun ev hev => hpre ev (List.mem_cons_of_mem _ hev))
      (by simp only [List.length_append]; omega) hlate]
    simp [hjoin, eventEdges, hres, List.append_assoc]

lemma collectLoop_err (maxPRs t : Nat) :
    ∀ (pre : List PageEvent) (err : PageEvent) (post : List PageEvent)
      (acc : List RawPREdge),
      (∀ ev ∈ pre, ev.elapsed ≤ t ∧ ∃ es, ev.result = .ok es true) →
      acc.length + ((pre.map eventEdges).flatten).length < maxPRs →
      eventIsErr err = true →
      err.elapsed ≤ t →
      collectLoop maxPRs t (pre ++ err :: post) acc true =
        ⟨acc ++ (pre.map eventEdges).flatten, pre ++ [err]⟩ := by
  intro pre
  induction pre with
  | nil =>
    intro err post acc hpre hcap herr herrt
    simp only [List.nil_append, collectLoop]
    rw [if_neg (by simp at hcap; omega), if_neg (by omega)]
    cases hres : err.result with
    | ok edges hn2 => simp [eventIsErr, hres] at herr
    | timeoutExc => simp [hres]
    | otherExc => simp [hres]
    | badStatus => simp [hres]
    | apiErrors => simp [hres]
  | cons e pre' ih =>
    intro err post acc hpre hcap herr herrt
    obtain ⟨htime, es, hres⟩ := hpre e (List.mem_cons_self e pre')
    have hjoin : (((e :: pre').map eventEdges)).flatten =
        es ++ ((pre'.map eventEdges)).flatten := by
      simp [eventEdges, hres]
    rw [hjoin] at hcap
    simp only [List.length_append] at hcap
    simp only [List.cons_append, collectLoop]
    rw [if_neg (by omega), if_neg (by omega)]
    simp only [hres]
    simp only [List.append_eq]
    rw [ih err post (acc ++ es)
      (fun ev hev => hpre ev (List.mem_cons_of_mem _ hev))
      (by simp only [List.length_append]; omega) herr herrt]
    simp [hjoin, eventEdges, hres, List.append_assoc]

/-! ### Map update lemmas -/

lemma upsert_upsert {α : Type} (k : String) (a b : α) :
    ∀ (m : List (String × α)), upsert (upsert m k a) k b = upsert m k b := by
  intro m
  induction m with
  | nil => simp [upsert]
  | cons e rest ih =>
    obtain ⟨k', v'⟩ := e
    by_cases h : k' = k
    · subst h
      simp [upsert]
    · simp [upsert, h, ih]

lemma upsert_not_mem {α : Type} :
    ∀ {m : List (String × α)} {k : String}, k ∉ m.map Prod.fst →
      ∀ (v : α), upsert m k v = m ++ [(k, v)] := by
  intro m
  induction m with
  | nil => intro k _ v; rfl
  | cons e rest ih =>
    intro k hk v
    obtain ⟨k', v'⟩ := e
    simp only [List.map_cons, List.mem_cons] at hk
    push_neg at hk
    simp only [upsert, List.cons_append]
    rw [if_neg fun h => hk.1 h.symm, ih hk.2]

/-! ### Spec-shape helper lemmas -/

lemma logSpec_length (maxPRs t : Nat) (events : Nat → List PageEvent) :
    ∀ (rs : List RepoEdge) (index : Nat),
      (logSpec maxPRs t events rs index).length = rs.length := by
  intro rs
  induction rs with
  | nil => intro index; rfl
  | cons r rest ih => intro index; simp [logSpec, ih]

lemma mapSpec_length (maxPRs t : Nat) (events : Nat → List PageEvent) :
    ∀ (rs : List RepoEdge) (index : Nat),
      (mapSpec maxPRs t events rs index).length = rs.length := by
  intro rs
  induction rs with
  | nil => intro index; rfl
  | cons r rest ih => intro index; simp [mapSpec, ih]

lemma logSpec_elim (maxPRs t : Nat) (events : Nat → List PageEvent) :
    ∀ (rs : List RepoEdge) (index : Nat) e,
      e ∈ logSpec maxPRs t events rs index →
      ∃ evs, e.2 = (collectLoop maxPRs t evs [] true).fetched := by
  intro rs
  induction rs with
  | nil => intro index e he; simp [logSpec] at he
  | cons r rest ih =>
    intro index e he
    simp only [logSpec, List.mem_cons] at he
    rcases he with h1 | h2
    · exact ⟨events index, by rw [h1]⟩
    · exact ih _ e h2

lemma logSpec_mem (maxPRs t : Nat) (events : Nat → List PageEvent) :
    ∀ (rs : List RepoEdge) (index k : Nat) (hk : k < rs.length),
      ((rs.get ⟨k, hk⟩).node.nameWithOwner,
        (collectLoop maxPRs t (events (index + k)) [] true).fetched)
        ∈ logSpec maxPRs t events rs index := by
  intro rs
  induction rs with
  | nil => intro index k hk; simp at hk
  | cons r rest ih =>
    intro index k hk
    cases k with
    | zero =>
      simp only [logSpec]
      exact List.mem_cons_self _ _
    | succ k' =>
      have harith : index + (k' + 1) = (index + 1) + k' := by omega
      rw [harith]
      have hk' : k' < rest.length := by simpa using hk
      simp only [logSpec]
      exact List.mem_cons_of_mem _ (ih (index + 1) k' hk')

lemma mapSpec_mem (maxPRs t : Nat) (events : Nat → List PageEvent) :
    ∀ (rs : List RepoEdge) (index k : Nat) (hk : k < rs.length),
      ((rs.get ⟨k, hk⟩).node.nameWithOwner,
        entityRecords maxPRs t (events (index + k)))
        ∈ mapSpec maxPRs t events rs index := by
  intro rs
  induction rs with
  | nil => intro index k hk; simp at hk
  | cons r rest ih =>
    intro index k hk
    cases k with
    | zero =>
      simp only [mapSpec]
      exact List.mem_cons_self _ _
    | succ k' =>
      have harith : index + (k' + 1) = (index + 1) + k' := by omega
      rw [harith]
      have hk' : k' < rest.length := by simpa using hk
      simp only [mapSpec]
      exact List.mem_cons_of_mem _ (ih (index + 1) k' hk')

/-! ### Outer collection lemmas -/

lemma get_prs_unfold (repos : List RepoEdge) (startIndex : Nat)
    (events : Nat → List PageEvent) (maxPRs t : Nat) :
    get_pull_requests_for_repos repos startIndex events maxPRs t =
      collectGo repos maxPRs t events (repos.drop (startIndex - 1))
        startIndex [] [] [] := rfl

lemma collectGo_fetchLog (allRepos : List RepoEdge) (maxPRs t : Nat)
    (events : Nat → List PageEvent) :
    ∀ (rs : List RepoEdge) (index : Nat) m cks log,
      (collectGo allRepos maxPRs t events rs index m cks log).fetchLog =
        log ++ logSpec maxPRs t events rs index := by
  intro rs
  induction rs with
  | nil => intro index m cks log; simp [collectGo, logSpec]
  | cons r rest ih =>
    intro index m cks log
    simp only [collectGo, logSpec]
    rw [ih]
    simp [List.append_assoc]

lemma entityRecords_eq (maxPRs t : Nat) (evs : List PageEvent) :
    (collectLoop maxPRs t evs [] true).collected.take maxPRs =
      entityRecords maxPRs t evs := rfl

lemma collectGo_prMap (allRepos : List RepoEdge) (maxPRs t : Nat)
    (events : Nat → List PageEvent) :
    ∀ (rs : List RepoEdge) (index : Nat)
      (m : List (String × List RawPREdge)) cks log,
      (m.map Prod.fst ++ rs.map fun r => r.node.nameWithOwner).Nodup →
      (collectGo allRepos maxPRs t events rs index m cks log).prMap =
        m ++ mapSpec maxPRs t events rs index := by
  intro rs
  induction rs with
  | nil => intro index m cks log _; simp [collectGo, mapSpec]
  | cons r rest ih =>
    intro index m cks log hnd
    have hnotm : r.node.nameWithOwner ∉ m.map Prod.fst := by
      rw [List.nodup_append] at hnd
      intro hmem
      exact hnd.2.2 hmem (by simp)
    have hnd2 : ((m ++ [(r.node.nameWithOwner,
          entityRecords maxPRs t (events index))]).map Prod.fst ++
        rest.map fun r => r.node.nameWithOwner).Nodup := by
      simpa [List.append_assoc] using hnd
    simp only [collectGo]
    rw [upsert_upsert, upsert_not_mem hnotm, entityRecords_eq]
    rw [ih (index + 1) _ _ _ hnd2]
    simp [mapSpec, entityRecords, List.append_assoc]

lemma collectGo_checkpoints (allRepos : List RepoEdge) (maxPRs t : Nat)
    (events : Nat → List PageEvent) :
    ∀ (rs : List RepoEdge) (index : Nat)
      (m : List (String × List RawPREdge)) cks log,
      (m.map Prod.fst ++ rs.map fun r => r.node.nameWithOwner).Nodup →
      (collectGo allRepos maxPRs t events rs index m cks log).checkpoints =
        cks ++ cksSpec allRepos maxPRs t events rs index m := by
  intro rs
  induction rs with
  | nil => intro index m cks log _; simp [collectGo, cksSpec]
  | cons r rest ih =>
    intro index m cks log hnd
    have hnotm : r.node.nameWithOwner ∉ m.map Prod.fst := by
      rw [List.nodup_append] at hnd
      intro hmem
      exact hnd.2.2 hmem (by simp)
    have hnd2 : ((m ++ [(r.node.nameWithOwner,
          entityRecords maxPRs t (events index))]).map Prod.fst ++
        rest.map fun r => r.node.nameWithOwner).Nodup := by
      simpa [List.append_assoc] using hnd
    simp only [collectGo, cksSpec]
    rw [upsert_upsert, upsert_not_mem hnotm, entityRecords_eq]
    rw [ih (index + 1) _ _ _ hnd2]
    by_cases h10 : index % 10 = 0
    · rw [if_pos h10, if_pos h10]
      simp [entityRecords, List.append_assoc]
    · rw [if_neg h10, if_neg h10]
      simp [entityRecords, List.append_assoc]

lemma cksSpec_map_fst (allRepos : List RepoEdge) (maxPRs t : Nat)
    (events : Nat → List PageEvent) :
    ∀ (rs : List RepoEdge) (index : Nat) (m : List (String × List RawPREdge)),
      (cksSpec allRepos maxPRs t events rs index m).map Prod.fst =
        (idxRange index rs.length).filter fun i => decide (i % 10 = 0) := by
  intro rs
  induction rs with
  | nil => intro index m; rfl
  | cons r rest ih =>
    intro index m
    simp only [cksSpec, List.length_cons, idxRange, List.filter_cons]
    by_cases h10 : index % 10 = 0
    · rw [if_pos h10]
      simp [h10, ih]
    · rw [if_neg h10]
      simp [h10, ih]

/-! ### Collector claims -/

/-- Claim C3: with the 90-second budget, no page is ever fetched once the
budget has elapsed — every issued request's elapsed-time reading is at
most 90 — and in the timeout scenario (a late iteration whose reading
exceeds 90) the entity keeps exactly the records gathered before that
iteration, the late page is never fetched, and every processed entity
(including the subsequent ones) still gets its fetch-log entry. -/
theorem c3_per_entity_timeout (repos : List RepoEdge) (startIndex : Nat)
    (events : Nat → List PageEvent) (maxPRs k : Nat)
    (hk : k < (repos.drop (startIndex - 1)).length)
    (hnd : ((repos.drop (startIndex - 1)).map
      fun r => r.node.nameWithOwner).Nodup)
    (pre : List PageEvent) (late : PageEvent) (post : List PageEvent)
    (hev : events (startIndex + k) = pre ++ late :: post)
    (hpre : ∀ ev ∈ pre, ev.elapsed ≤ 90 ∧ ∃ es, ev.result = .ok es true)
    (hcap : ((pre.map eventEdges).flatten).length < maxPRs)
    (hlate : 90 < late.elapsed) :
    (∀ e ∈ (get_pull_requests_for_repos repos startIndex events
        maxPRs 90).fetchLog, ∀ ev ∈ e.2, ev.elapsed ≤ 90) ∧
    (((repos.drop (startIndex - 1)).get ⟨k, hk⟩).node.nameWithOwner,
        ((pre.map eventEdges).flatten).take maxPRs)
      ∈ (get_pull_requests_for_repos repos startIndex events maxPRs 90).prMap ∧
    (((repos.drop (startIndex - 1)).get ⟨k, hk⟩).node.nameWithOwner, pre)
      ∈ (get_pull_requests_for_repos repos startIndex events maxPRs 90).fetchLog ∧
    (get_pull_requests_for_repos repos startIndex events
        maxPRs 90).fetchLog.length = (repos.drop (startIndex - 1)).length := by
  have hloop : collectLoop maxPRs 90 (events (startIndex + k)) [] true =
      ⟨(pre.map eventEdges).flatten, pre⟩ := by
    rw [hev]
    exact collectLoop_timeout maxPRs 90 pre late post [] hpre
      (by simpa using hcap) hlate
  have hrec : entityRecords maxPRs 90 (events (startIndex + k)) =
      ((pre.map eventEdges).flatten).take maxPRs := by
    simp only [entityRecords, hloop]
  have hlog := collectGo_fetchLog repos maxPRs 90 events
    (repos.drop (startIndex - 1)) startIndex [] [] []
  have hmap := collectGo_prMap repos maxPRs 90 events
    (repos.drop (startIndex - 1)) startIndex [] [] [] (by simpa using hnd)
  rw [get_prs_unfold]
  refine ⟨?_, ?_, ?_, ?_⟩
  · intro e he ev hev'
    rw [hlog] at he
    simp only [List.nil_append] at he
    obtain ⟨evs, he2⟩ := logSpec_elim maxPRs 90 events _ startIndex e he
    rw [he2] at hev'
    exact collectLoop_fetched_elapsed maxPRs 90 evs [] true ev hev'
  · rw [hmap]
    simp only [List.nil_append]
    rw [← hrec]
    exact mapSpec_mem maxPRs 90 events _ startIndex k hk
  · rw [hlog]
    simp only [List.nil_append]
    have hm := logSpec_mem maxPRs 90 events
      (repos.drop (startIndex - 1)) startIndex k hk
    rw [hloop] at hm
    simpa using hm
  · rw [hlog]
    simp only [List.nil_append]
    exact logSpec_length maxPRs 90 events _ startIndex

/-- Claim C7: a page-fetch failure (timeout, other exception, non-200
status, or API-level error list) aborts only the affected entity's loop:
the failing request is issued exactly once and nothing after it is
fetched, the records gathered before the failure are kept in the result
map (truncated to the cap), and every processed entity — before and after
the failing one — still has its map entry and fetch-log entry, so the job
as a whole does not fail. -/
theorem c7_page_failure_isolation (repos : List RepoEdge) (startIndex : Nat)
    (events : Nat → List PageEvent) (maxPRs k : Nat)
    (hk : k < (repos.drop (startIndex - 1)).length)
    (hnd : ((repos.drop (startIndex - 1)).map
      fun r => r.node.nameWithOwner).Nodup)
    (pre : List PageEvent) (err : PageEvent) (post : List PageEvent)
    (hev : events (startIndex + k) = pre ++ err :: post)
    (hpre : ∀ ev ∈ pre, ev.elapsed ≤ 90 ∧ ∃ es, ev.result = .ok es true)
    (hcap : ((pre.map eventEdges).flatten).length < maxPRs)
    (herr : eventIsErr err = true)
    (herrt : err.elapsed ≤ 90) :
    (((repos.drop (startIndex - 1)).get ⟨k, hk⟩).node.nameWithOwner,
        ((pre.map eventEdges).flatten).take maxPRs)
      ∈ (get_pull_requests_for_repos repos startIndex events maxPRs 90).prMap ∧
    (((repos.drop (startIndex - 1)).get ⟨k, hk⟩).node.nameWithOwner,
        pre ++ [err])
      ∈ (get_pull_requests_for_repos repos startIndex events maxPRs 90).fetchLog ∧
    (get_pull_requests_for_repos repos startIndex events
        maxPRs 90).fetchLog.length = (repos.drop (startIndex - 1)).length ∧
    (get_pull_requests_for_repos repos startIndex events
        maxPRs 90).prMap.length = (repos.drop (startIndex - 1)).length := by
  have hloop : collectLoop maxPRs 90 (events (startIndex + k)) [] true =
      ⟨(pre.map eventEdges).flatten, pre ++ [err]⟩ := by
    rw [hev]
    exact collectLoop_err maxPRs 90 pre err post [] hpre
      (by simpa using hcap) herr herrt
  have hrec : entityRecords maxPRs 90 (events (startIndex + k)) =
      ((pre.map eventEdges).flatten).take maxPRs := by
    simp only [entityRecords, hloop]
  have hlog := collectGo_fetchLog repos maxPRs 90 events
    (repos.drop (startIndex - 1)) startIndex [] [] []
  have hmap := collectGo_prMap repos maxPRs 90 events
    (repos.drop (startIndex - 1)) startIndex [] [] [] (by simpa using hnd)
  rw [get_prs_unfold]
  refine ⟨?_, ?_, ?_, ?_⟩
  · rw [hmap]
    simp only [List.nil_append]
    rw [← hrec]
    exact mapSpec_mem maxPRs 90 events _ startIndex k hk
  · rw [hlog]
    simp only [List.nil_append]
    have hm := logSpec_mem maxPRs 90 events
      (repos.drop (startIndex - 1)) startIndex k hk
    rw [hloop] at hm
    simpa using hm
  · rw [hlog]
    simp only [List.nil_append]
    exact logSpec_length maxPRs 90 events _ startIndex
  · rw [hmap]
    simp only [List.nil_append]
    exact mapSpec_length maxPRs 90 events _ startIndex

/-- Claim C2 (amended): a checkpoint named by the current absolute entity
index is written exactly when that index is a multiple of 10 — not after
every 10 entities processed relative to the resume offset — and its
content serializes the first index entities against the map accumulated so
far, in which each processed entity carries its collected records but
entities with no collected records are omitted by the serializer
(cksSpec states this schedule and content). -/
theorem c2_checkpoint_schedule (repos : List RepoEdge) (startIndex : Nat)
    (events : Nat → List PageEvent) (maxPRs t : Nat)
    (hnd : ((repos.drop (startIndex - 1)).map
      fun r => r.node.nameWithOwner).Nodup) :
    (get_pull_requests_for_repos repos startIndex events maxPRs t).checkpoints
      = cksSpec repos maxPRs t events (repos.drop (startIndex - 1))
          startIndex [] ∧
    (get_pull_requests_for_repos repos startIndex events
        maxPRs t).checkpoints.map Prod.fst
      = (idxRange startIndex (repos.drop (startIndex - 1)).length).filter
          fun i => decide (i % 10 = 0) := by
  have hcks := collectGo_checkpoints repos maxPRs t events
    (repos.drop (startIndex - 1)) startIndex [] [] [] (by simpa using hnd)
  rw [get_prs_unfold]
  refine ⟨by simpa using hcks, ?_⟩
  rw [hcks]
  simp only [List.nil_append]
  exact cksSpec_map_fst repos maxPRs t events _ startIndex []

/-- The repository list used for the C2 counterexample: 21 entities. -/
def cxRepos : List RepoEdge := List.replicate 21 ⟨⟨"octo/dup", 0, "u"⟩⟩

/-- The page events for the C2 counterexample: every entity answers its
first page with no edges and no further pages. -/
def cxEvents : Nat → List PageEvent := fun _ => [⟨0, .ok [] false⟩]

/-- Counterexample to claim C2 as stated.  With resume offset 12 over 21
entities, the processed entities have absolute indices 12..21, so after
the 10th processed entity the current index is 21 — yet no checkpoint
named 21 is written: the run's only checkpoint is at index 20, written
after just 9 entities of this run, and its content is empty even though
those 9 entities had been processed (each with zero collected records).
So a checkpoint is not written after every 10 entities processed for every
resume offset, and it does not contain all entities processed so far. -/
theorem c2_counterexample :
    (get_pull_requests_for_repos cxRepos 12 cxEvents 100 90).checkpoints
      = [(20, [])] ∧
    21 ∉ (get_pull_requests_for_repos cxRepos 12 cxEvents
        100 90).checkpoints.map Prod.fst := by
  decide

/-- A single-repository input used by collector witnesses. -/
def wRepoA : RepoEdge := ⟨⟨"octo/a", 3, "https://example.com/octo/a"⟩⟩

/-- A page event whose elapsed reading exceeds the 90s budget. -/
def wLateEvent : PageEvent := ⟨120, .ok [] true⟩

/-- A failing page event (non-200 status) within the budget. -/
def wErrEvent : PageEvent := ⟨0, .badStatus⟩

/-- Witness for C2 (amended) at a concrete input. -/
theorem c2_witness :
    ((get_pull_requests_for_repos [wRepoA] 1 (fun _ => []) 100 90).checkpoints
      = cksSpec [wRepoA] 100 90 (fun _ => []) ([wRepoA].drop (1 - 1)) 1 []) ∧
    ((get_pull_requests_for_repos [wRepoA] 1 (fun _ => [])
        100 90).checkpoints.map Prod.fst
      = (idxRange 1 ([wRepoA].drop (1 - 1)).length).filter
          fun i => decide (i % 10 = 0)) :=
  c2_checkpoint_schedule [wRepoA] 1 (fun _ => []) 100 90 (by decide)

/-- Witness for C3 at a concrete input. -/
theorem c3_witness :
    (∀ e ∈ (get_pull_requests_for_repos [wRepoA] 1 (fun _ => [wLateEvent])
        100 90).fetchLog, ∀ ev ∈ e.2, ev.elapsed ≤ 90) ∧
    ((([wRepoA].drop (1 - 1)).get ⟨0, by decide⟩).node.nameWithOwner,
        ((([] : List PageEvent).map eventEdges).flatten).take 100)
      ∈ (get_pull_requests_for_repos [wRepoA] 1 (fun _ => [wLateEvent])
          100 90).prMap ∧
    ((([wRepoA].drop (1 - 1)).get ⟨0, by decide⟩).node.nameWithOwner,
        ([] : List PageEvent))
      ∈ (get_pull_requests_for_repos [wRepoA] 1 (fun _ => [wLateEvent])
          100 90).fetchLog ∧
    (get_pull_requests_for_repos [wRepoA] 1 (fun _ => [wLateEvent])
        100 90).fetchLog.length = ([wRepoA].drop (1 - 1)).length :=
  c3_per_entity_timeout [wRepoA] 1 (fun _ => [wLateEvent]) 100 0 (by decide)
    (by decide) [] wLateEvent [] rfl (by simp) (by decide) (by decide)

/-- Witness for C7 at a concrete input. -/
theorem c7_witness :
    ((([wRepoA].drop (1 - 1)).get ⟨0, by decide⟩).node.nameWithOwner,
        ((([] : List PageEvent).map eventEdges).flatten).take 100)
      ∈ (get_pull_requests_for_repos [wRepoA] 1 (fun _ => [wErrEvent])
          100 90).prMap ∧
    ((([wRepoA].drop (1 - 1)).get ⟨0, by decide⟩).node.nameWithOwner,
        [] ++ [wErrEvent])
      ∈ (get_pull_requests_for_repos [wRepoA] 1 (fun _ => [wErrEvent])
          100 90).fetchLog ∧
    (get_pull_requests_for_repos [wRepoA] 1 (fun _ => [wErrEvent])
        100 90).fetchLog.length = ([wRepoA].drop (1 - 1)).length ∧
    (get_pull_requests_for_repos [wRepoA] 1 (fun _ => [wErrEvent])
        100 90).prMap.length = ([wRepoA].drop (1 - 1)).length :=
  c7_page_failure_isolation [wRepoA] 1 (fun _ => [wErrEvent]) 100 0
    (by decide) (by decide) [] wErrEvent [] rfl (by simp) (by decide)
    (by decide) (by decide)

end Lab03
